import Mathlib

set_option maxHeartbeats 1000000

/-!
A verification development for the binary edge-list loader of the graph
storage engine (`ll_load_bin.h` and its plain-directory revision).

The embedding follows the source: the multi-file backing-store scanner
(`kron_reader`), the partition planner (`ll_loader_bin::init`), the
edge-list adapter (`bin_loader`), and the plain-directory variant of
`bin_loader`.  Machine integers are modelled as `Nat` (all arithmetic in
the loader is index arithmetic on small nonnegative quantities, far from
the 64-bit overflow boundary); `FILE*` I/O becomes explicit state
passing over the record contents of the backing files; process-`abort`
paths are modelled as `Option.none`.
-/

/-- Buffer capacity of the scanner in records (`BUFFER_SIZE = 1024 * 1024`). -/
def KRON_BUFFER_SIZE : Nat := 1024 * 1024

/-- One synthetic-format input.  `nExp` and `mult` are the two integers parsed
from the `Kron<n>-<m>` path name; `files` holds the record contents of the
backing files `block-00.bin`, `block-01.bin`, ... in file-index order.  Each
record is the pair of the two consecutive on-disk 64-bit integers, first
integer in the first component (`EdgeType = std::pair<NodeType, NodeType>`). -/
structure Disk where
  nExp : Nat
  mult : Nat
  files : List (List (Nat × Nat))
deriving DecidableEq

/-- Node count of the input: `_total_nodes = 1ull << n` in the
`kron_reader` constructor. -/
def totalNodes (d : Disk) : Nat := 2 ^ d.nExp

/-- Edge count of the input: `_total_edges = _total_nodes * m` in the
`kron_reader` constructor. -/
def totalEdges (d : Disk) : Nat := totalNodes d * d.mult

/-- Per-file record capacity, derived from the first file:
`_edges_per_file = std::filesystem::file_size(filepath(0)) / sizeof(EdgeType)`. -/
def edgesPerFile (d : Disk) : Nat := (d.files.headD []).length

/-- Mutable state of `kron_reader`: the read-ahead buffer contents (`_buffer`
up to `_len`), the in-buffer cursor `_cur`, the logical index `_begin` of the
buffer's first record, the id `_cur_file_id` of the currently open file,
whether a file is open (`_file != nullptr`), and the record offset of the open
file's read position. -/
structure KronState where
  buffer : List (Nat × Nat)
  cur : Nat
  bufBegin : Nat
  curFileId : Nat
  fileOpen : Bool
  filePos : Nat
deriving DecidableEq

/-- State of a freshly constructed `kron_reader`:
`_cur(0), _begin(0), _len(0), _file(nullptr), _cur_file_id(0)`. -/
def initKron : KronState :=
  { buffer := [], cur := 0, bufBegin := 0, curFileId := 0, fileOpen := false, filePos := 0 }

/-- Result of `fread(_buffer, sizeof(EdgeType), BUFFER_SIZE, _file)` after an
`fseek` to record offset `off` of file `fid`: up to `BUFFER_SIZE` records,
bounded by the end of that file. -/
def fileRead (d : Disk) (fid off : Nat) : List (Nat × Nat) :=
  ((d.files.getD fid []).drop off).take KRON_BUFFER_SIZE

/-- The scanner operation `kron_reader::seek(n)`.  Returns `none` when the
source would `abort` (an `fopen` failure, i.e. the computed file id has no
backing file), and otherwise `some (r, s)` where `r` is the C++ return value
and `s` the post state.  The guard order follows the source: the
`n >= _total_edges` check comes first, then the in-buffer fast path, then the
owning file is computed as `n / _edges_per_file`, `n % _edges_per_file`, the
file is (re)opened if needed, and the buffer is refilled from that offset. -/
def kseek (d : Disk) (s : KronState) (n : Nat) : Option (Bool × KronState) :=
  if totalEdges d ≤ n then
    some (false, s)
  else if s.bufBegin ≤ n ∧ n < s.bufBegin + s.buffer.length then
    some (true, { s with cur := n - s.bufBegin })
  else
    let fid := n / edgesPerFile d
    let off := n % edgesPerFile d
    if fid < d.files.length then
      let buf := fileRead d fid off
      some (true, { buffer := buf, cur := 0, bufBegin := n, curFileId := fid,
                    fileOpen := true, filePos := off + buf.length })
    else
      none

/-- The scanner operation `kron_reader::next(tail, head)`.  On buffer
exhaustion it first seeks to `_begin + _len`; a failed seek is reported as
exhaustion (`some (none, s)`), an aborting seek as `none`.  Otherwise it emits
the record under the cursor with `*tail = _buffer[_cur].second` and
`*head = _buffer[_cur].first`, and advances the cursor.  The emitted pair is
`(tail, head)`. -/
def knext (d : Disk) (s : KronState) : Option (Option (Nat × Nat) × KronState) :=
  if s.cur = s.buffer.length then
    match kseek d s (s.bufBegin + s.buffer.length) with
    | none => none
    | some (false, s1) => some (none, s1)
    | some (true, s1) =>
        let r := s1.buffer.getD s1.cur (0, 0)
        some (some (r.2, r.1), { s1 with cur := s1.cur + 1 })
  else
    let r := s.buffer.getD s.cur (0, 0)
    some (some (r.2, r.1), { s with cur := s.cur + 1 })

/-- Record at logical stream index `i`: the synthetic format addresses record
`i` as offset `i % edgesPerFile` of file `i / edgesPerFile`. -/
def streamRec (d : Disk) (i : Nat) : Nat × Nat :=
  (d.files.getD (i / edgesPerFile d) []).getD (i % edgesPerFile d) (0, 0)

/-- The `(tail, head)` pair the scanner emits for stream index `i`
(the source swaps the two on-disk integers: tail is the second one). -/
def emitted (d : Disk) (i : Nat) : Nat × Nat :=
  ((streamRec d i).2, (streamRec d i).1)

/-- The list of `(tail, head)` pairs emitted for stream indices
`start, start+1, ..., start+len-1`. -/
def expectedEdges (d : Disk) (start : Nat) : Nat → List (Nat × Nat)
  | 0 => []
  | len + 1 => emitted d start :: expectedEdges d (start + 1) len

/-- Well-formedness of the synthetic input assumed by the scanner: the first
file is nonempty, every backing file has the uniform per-file capacity, and
there are enough files to cover all `totalEdges` records. -/
def UniformDisk (d : Disk) : Prop :=
  0 < edgesPerFile d ∧
  (∀ f ∈ d.files, f.length = edgesPerFile d) ∧
  totalEdges d ≤ d.files.length * edgesPerFile d

/-- Invariant of reachable scanner states: the cursor stays within the filled
buffer, and the buffer window faithfully mirrors the stream starting at
`bufBegin`. -/
def GoodState (d : Disk) (s : KronState) : Prop :=
  s.cur ≤ s.buffer.length ∧
  ∀ j, j < s.buffer.length → s.buffer.getD j (0, 0) = streamRec d (s.bufBegin + j)

/-- Logical position of the scanner cursor. -/
def kpos (s : KronState) : Nat := s.bufBegin + s.cur

instance (d : Disk) : Decidable (UniformDisk d) := by
  unfold UniformDisk
  infer_instance

instance (d : Disk) (s : KronState) : Decidable (GoodState d s) := by
  unfold GoodState
  infer_instance

/-- Repeated calls of `kron_reader::next`, collecting the per-call results in
order (`some` for a delivered record, `none` for reported exhaustion), and the
final scanner state; `none` overall when any call aborts. -/
def knextMany (d : Disk) (s : KronState) : Nat → Option (List (Option (Nat × Nat)) × KronState)
  | 0 => some ([], s)
  | j + 1 =>
    match knext d s with
    | none => none
    | some (r, s1) =>
      match knextMany d s1 j with
      | none => none
      | some (rs, s2) => some (r :: rs, s2)

/-- State of the `bin_loader` adapter over a `kron_reader`:
`_begin_edge`, `_needed_edges`, `_loaded_edges`, and the scanner it drives. -/
structure BinLoader where
  beginEdge : Nat
  neededEdges : Nat
  loadedEdges : Nat
  reader : KronState
deriving DecidableEq

/-- The adapter operation `bin_loader::rewind`: reseek the scanner to
`_begin_edge` (the boolean result of the seek is discarded by the source) and
reset `_loaded_edges` to 0.  `none` models an aborting seek. -/
def bl_rewind (d : Disk) (b : BinLoader) : Option BinLoader :=
  match kseek d b.reader b.beginEdge with
  | none => none
  | some (_, s1) => some { b with reader := s1, loadedEdges := 0 }

/-- The `bin_loader` constructor: store the partition range and call
`rewind()`. -/
def bl_mk (d : Disk) (needed beginE : Nat) (s : KronState) : Option BinLoader :=
  bl_rewind d { beginEdge := beginE, neededEdges := needed, loadedEdges := 0, reader := s }

/-- The adapter operation `bin_loader::next_edge`: report exhaustion as soon
as `_loaded_edges == _needed_edges`; otherwise delegate to the scanner's
`next` and add its success bit to `_loaded_edges`. -/
def bl_next_edge (d : Disk) (b : BinLoader) : Option (Option (Nat × Nat) × BinLoader) :=
  if b.loadedEdges = b.neededEdges then
    some (none, b)
  else
    match knext d b.reader with
    | none => none
    | some (none, s1) => some (none, { b with reader := s1 })
    | some (some e, s1) => some (some e, { b with reader := s1, loadedEdges := b.loadedEdges + 1 })

/-- The adapter operation `bin_loader::stat`: it writes
`*o_nodes = _reader->total_nodes()`, `*o_edges = _needed_edges` and returns
`true`, touching no other state; the pair is the answer, the second component
the post state. -/
def bl_stat (d : Disk) (b : BinLoader) : Option (Nat × Nat) × BinLoader :=
  (some (totalNodes d, b.neededEdges), b)

/-- Repeated calls of `bin_loader::next_edge`, collecting the per-call
results in order together with the final adapter state. -/
def bl_run (d : Disk) (b : BinLoader) : Nat → Option (List (Option (Nat × Nat)) × BinLoader)
  | 0 => some ([], b)
  | j + 1 =>
    match bl_next_edge d b with
    | none => none
    | some (r, b1) =>
      match bl_run d b1 j with
      | none => none
      | some (rs, b2) => some (r :: rs, b2)

/-- The partition planner `ll_loader_bin::init` restricted to its pure part:
given the scanner's `total_edges()` and the configuration (`none` models a
null `ll_loader_config*`; `some (nparts, part)` the two `partial`-load fields),
produce `(needed_edge, begin_edge)`, or `none` for the two `abort()` paths
(non-divisible edge count, out-of-bounds part id). -/
def ll_init_plan (total : Nat) (config : Option (Nat × Nat)) : Option (Nat × Nat) :=
  match config with
  | none => some (total, 0)
  | some (nparts, part) =>
    if 0 < nparts then
      if total % nparts ≠ 0 then
        none
      else if part = 0 ∨ nparts < part then
        none
      else
        some (total / nparts, (part - 1) * (total / nparts))
    else
      some (total, 0)

/-- The edge-range a planned partition covers, as a finite set of stream
indices: `[begin_edge, begin_edge + needed_edges)`, empty when the planner
aborts. -/
def planRange (total nparts part : Nat) : Finset Nat :=
  match ll_init_plan total (some (nparts, part)) with
  | none => ∅
  | some (needed, beginE) => Finset.Ico beginE (beginE + needed)

/-- The front-end operation `ll_loader_bin::create_data_source`: it calls
`init(file, nullptr)` and builds a `bin_loader` over the cached scanner with
the resulting range. -/
def ll_create_data_source (d : Disk) (s : KronState) : Option BinLoader :=
  match ll_init_plan (totalEdges d) none with
  | none => none
  | some (needed, beginE) => bl_mk d needed beginE s

/-- One full restart cycle of the adapter, as the read-only graph builder
performs it: `rewind()` followed by `_needed_edges` calls of `next_edge()`. -/
def bl_pass (d : Disk) (b : BinLoader) : Option (List (Option (Nat × Nat)) × BinLoader) :=
  match bl_rewind d b with
  | none => none
  | some b1 => bl_run d b1 b1.neededEdges

/-- Several consecutive restart cycles, collecting the record sequence each
cycle produced. -/
def bl_passes (d : Disk) (b : BinLoader) :
    Nat → Option (List (List (Option (Nat × Nat))) × BinLoader)
  | 0 => some ([], b)
  | m + 1 =>
    match bl_pass d b with
    | none => none
    | some (l, b1) =>
      match bl_passes d b1 m with
      | none => none
      | some (ls, b2) => some (l :: ls, b2)

/-- Buffer capacity of the plain-directory loader (`BUFFER_SIZE = 1024 * 1024`). -/
def PLAIN_BUFFER_SIZE : Nat := 1024 * 1024

/-- State of the plain-directory `bin_loader`: the directory-iterator
position `_iter` (index of the current file), the read position of the open
`FILE*` in records, its end-of-file indicator, the valid buffer contents
(`_buffer` up to `_count`), the in-buffer cursor `_cur`, and
`_loaded_edges`. -/
structure PlainLoader where
  fileIdx : Nat
  filePos : Nat
  eofSeen : Bool
  buffer : List (Nat × Nat)
  cur : Nat
  loadedEdges : Nat
deriving DecidableEq

/-- The plain loader's `read_buffer`, a do-while loop (modelled with explicit
fuel; `none` means the fuel ran out, which no run in this file reaches).  One
iteration performs, exactly as the source: a first `fread` into `_buffer`;
if the stream's end-of-file indicator is set, `next_file()` (advance `_iter`,
return `false` at directory end, else open the next file); then a second,
unconditional `fread` into `_buffer` whose count becomes `_count`, looping
while `_count == 0`.  An `fread` returns up to `BUFFER_SIZE` records from the
current position and sets the end-of-file indicator exactly when it returns
fewer records than requested. -/
def plainReadBuffer (dir : List (List (Nat × Nat))) :
    Nat → PlainLoader → Option (Bool × PlainLoader)
  | 0, _ => none
  | fuel + 1, s =>
    let f := dir.getD s.fileIdx []
    let r1 := (f.drop s.filePos).take PLAIN_BUFFER_SIZE
    let s1 : PlainLoader :=
      { s with
        buffer := r1
        filePos := s.filePos + r1.length
        eofSeen := s.eofSeen || decide (r1.length < PLAIN_BUFFER_SIZE) }
    if s1.eofSeen then
      if s1.fileIdx + 1 < dir.length then
        let s2 : PlainLoader :=
          { s1 with fileIdx := s1.fileIdx + 1, filePos := 0, eofSeen := false }
        let f2 := dir.getD s2.fileIdx []
        let r2 := (f2.drop s2.filePos).take PLAIN_BUFFER_SIZE
        let s3 : PlainLoader :=
          { s2 with
            buffer := r2
            filePos := s2.filePos + r2.length
            eofSeen := s2.eofSeen || decide (r2.length < PLAIN_BUFFER_SIZE) }
        if s3.buffer.length = 0 then plainReadBuffer dir fuel s3
        else some (true, { s3 with cur := 0 })
      else
        some (false, s1)
    else
      let r2 := (f.drop s1.filePos).take PLAIN_BUFFER_SIZE
      let s3 : PlainLoader :=
        { s1 with
          buffer := r2
          filePos := s1.filePos + r2.length
          eofSeen := s1.eofSeen || decide (r2.length < PLAIN_BUFFER_SIZE) }
      if s3.buffer.length = 0 then plainReadBuffer dir fuel s3
      else some (true, { s3 with cur := 0 })

/-- The plain loader's `next_edge`: refill via `read_buffer` when the buffer
is consumed (a `false` from it is exhaustion), then emit
`*o_head = _buffer[_cur].first`, `*o_tail = _buffer[_cur].second` as the
`(tail, head)` pair and advance `_cur` and `_loaded_edges`. -/
def plainNextEdge (dir : List (List (Nat × Nat))) (fuel : Nat) (s : PlainLoader) :
    Option (Option (Nat × Nat) × PlainLoader) :=
  if s.cur = s.buffer.length then
    match plainReadBuffer dir fuel s with
    | none => none
    | some (false, s1) => some (none, s1)
    | some (true, s1) =>
      let r := s1.buffer.getD s1.cur (0, 0)
      some (some (r.2, r.1), { s1 with cur := s1.cur + 1, loadedEdges := s1.loadedEdges + 1 })
  else
    let r := s.buffer.getD s.cur (0, 0)
    some (some (r.2, r.1), { s with cur := s.cur + 1, loadedEdges := s.loadedEdges + 1 })

/-- The plain loader's `rewind`: restart the directory iteration, abort
(`none`) on an empty directory, open the first file and clear
`_cur`, `_count` and `_loaded_edges`. -/
def plainRewind (dir : List (List (Nat × Nat))) (s : PlainLoader) : Option PlainLoader :=
  if dir.length = 0 then
    none
  else
    some
      { s with
        fileIdx := 0
        filePos := 0
        eofSeen := false
        buffer := []
        cur := 0
        loadedEdges := 0 }

/-- The plain loader's constructor: allocate an empty buffer and `rewind()`. -/
def plainMk (dir : List (List (Nat × Nat))) : Option PlainLoader :=
  plainRewind dir
    { fileIdx := 0, filePos := 0, eofSeen := false, buffer := [], cur := 0, loadedEdges := 0 }

/-- The plain loader's `stat`: the whole body is commented out except
`return false`; no state is touched. -/
def plainStat (s : PlainLoader) : Option (Nat × Nat) × PlainLoader :=
  (none, s)

/-- Repeated calls of the plain loader's `next_edge`, collecting the
per-call results in order together with the final state. -/
def plainRun (dir : List (List (Nat × Nat))) (fuel : Nat) (s : PlainLoader) :
    Nat → Option (List (Option (Nat × Nat)) × PlainLoader)
  | 0 => some ([], s)
  | j + 1 =>
    match plainNextEdge dir fuel s with
    | none => none
    | some (r, s1) =>
      match plainRun dir fuel s1 j with
      | none => none
      | some (rs, s2) => some (r :: rs, s2)

/-- Synthetic input `Kron1-2` (4 edges) backed by one 4-record file. -/
def disk4 : Disk := ⟨1, 2, [[(1, 2), (3, 4), (5, 6), (7, 8)]]⟩

/-- Scanner state of `disk4` right after `seek(0)`. -/
def state4 : KronState := ⟨[(1, 2), (3, 4), (5, 6), (7, 8)], 0, 0, 0, true, 4⟩

/-- Adapter over `disk4` planned for the first half-shard `[0, 2)`. -/
def loader42 : BinLoader := ⟨0, 2, 0, state4⟩

/-- Freshly planned full-range adapter over `disk4` before its first seek. -/
def loader44 : BinLoader := ⟨0, 4, 0, initKron⟩

/-- Synthetic input `Kron0-1` (1 edge) whose single record is `(1, 2)`. -/
def diskC5 : Disk := ⟨0, 1, [[(1, 2)]]⟩

/-- Synthetic input `Kron1-2` (4 logical edges) whose single backing file
physically holds 6 records, so the buffered window can extend past
`total_edges`. -/
def diskC9 : Disk :=
  ⟨1, 2, [[(10, 11), (12, 13), (14, 15), (16, 17), (18, 19), (20, 21)]]⟩

/-- Scanner state over `diskC9` right after `seek(0)`: the buffer windows all
6 physical records even though `total_edges = 4`. -/
def stateC9 : KronState :=
  ⟨[(10, 11), (12, 13), (14, 15), (16, 17), (18, 19), (20, 21)], 0, 0, 0, true, 6⟩

/-- Plain-format directory with two files holding 3 records and 2 records. -/
def dirC6 : List (List (Nat × Nat)) := [[(1, 2), (3, 4), (5, 6)], [(7, 8), (9, 10)]]

theorem initKron_good (d : Disk) : GoodState d initKron := by
  constructor
  · simp [initKron]
  · intro j hj
    simp [initKron] at hj

theorem kseek_fail (d : Disk) (s : KronState) (n : Nat) (h : totalEdges d ≤ n) :
    kseek d s n = some (false, s) := by
  simp [kseek, h]

theorem fileRead_length (d : Disk) (fid off : Nat) :
    (fileRead d fid off).length =
      min KRON_BUFFER_SIZE ((d.files.getD fid []).length - off) := by
  simp [fileRead, List.length_take, List.length_drop, Nat.min_comm]

theorem fileRead_getD (d : Disk) (fid off j : Nat) (hj : j < (fileRead d fid off).length) :
    (fileRead d fid off).getD j (0, 0) = (d.files.getD fid []).getD (off + j) (0, 0) := by
  have hj' : j < (d.files.getD fid []).length - off := by
    have := fileRead_length d fid off
    omega
  have hoj : off + j < (d.files.getD fid []).length := by omega
  rw [List.getD_eq_getElem _ _ hj, List.getD_eq_getElem _ _ hoj]
  simp [fileRead]

theorem kseek_ok (d : Disk) (s : KronState) (n : Nat)
    (hU : UniformDisk d) (hG : GoodState d s) (hn : n < totalEdges d) :
    ∃ s1, kseek d s n = some (true, s1) ∧ GoodState d s1 ∧
      s1.bufBegin + s1.cur = n ∧ s1.cur < s1.buffer.length := by
  obtain ⟨hepf, hflen, htot⟩ := hU
  obtain ⟨hcur, hbuf⟩ := hG
  by_cases hwin : s.bufBegin ≤ n ∧ n < s.bufBegin + s.buffer.length
  · refine ⟨{ s with cur := n - s.bufBegin }, ?_, ⟨?_, ?_⟩, ?_, ?_⟩
    · simp [kseek, Nat.not_le.mpr hn, hwin]
    · show n - s.bufBegin ≤ s.buffer.length
      omega
    · intro j hj
      exact hbuf j hj
    · show s.bufBegin + (n - s.bufBegin) = n
      omega
    · show n - s.bufBegin < s.buffer.length
      omega
  · have hfid : n / edgesPerFile d < d.files.length := by
      rw [Nat.div_lt_iff_lt_mul hepf]
      exact lt_of_lt_of_le hn htot
    have hfl : (d.files.getD (n / edgesPerFile d) []).length = edgesPerFile d := by
      apply hflen
      rw [List.getD_eq_getElem _ _ hfid]
      exact List.getElem_mem hfid
    have hoff : n % edgesPerFile d < edgesPerFile d := Nat.mod_lt _ hepf
    have hblen : (fileRead d (n / edgesPerFile d) (n % edgesPerFile d)).length =
        min KRON_BUFFER_SIZE (edgesPerFile d - n % edgesPerFile d) := by
      rw [fileRead_length, hfl]
    have hbpos : 0 < (fileRead d (n / edgesPerFile d) (n % edgesPerFile d)).length := by
      rw [hblen]
      have : 0 < KRON_BUFFER_SIZE := by decide
      omega
    refine ⟨KronState.mk (fileRead d (n / edgesPerFile d) (n % edgesPerFile d)) 0 n
        (n / edgesPerFile d) true
        (n % edgesPerFile d + (fileRead d (n / edgesPerFile d) (n % edgesPerFile d)).length),
      ?_, ⟨?_, ?_⟩, ?_, ?_⟩
    · simp only [kseek, Nat.not_le.mpr hn, if_false, hwin, if_pos hfid]
    · simp
    · intro j hj
      simp only at hj ⊢
      rw [fileRead_getD d _ _ j hj]
      have hjlt : n % edgesPerFile d + j < edgesPerFile d := by
        rw [hblen] at hj
        omega
      unfold streamRec
      have hsplit : n = edgesPerFile d * (n / edgesPerFile d) + n % edgesPerFile d :=
        (Nat.div_add_mod n (edgesPerFile d)).symm
      have hdiv : (n + j) / edgesPerFile d = n / edgesPerFile d := by
        conv_lhs => rw [hsplit]
        rw [Nat.add_assoc, Nat.mul_add_div hepf]
        rw [Nat.div_eq_of_lt hjlt, Nat.add_zero]
      have hmod : (n + j) % edgesPerFile d = n % edgesPerFile d + j := by
        conv_lhs => rw [hsplit]
        rw [Nat.add_assoc, Nat.mul_add_mod]
        exact Nat.mod_eq_of_lt hjlt
      rw [hdiv, hmod]
    · simp
    · simpa using hbpos

theorem knext_ok (d : Disk) (s : KronState)
    (hU : UniformDisk d) (hG : GoodState d s) (hpos : kpos s < totalEdges d) :
    ∃ s2, knext d s = some (some (emitted d (kpos s)), s2) ∧ GoodState d s2 ∧
      kpos s2 = kpos s + 1 := by
  by_cases hc : s.cur = s.buffer.length
  · have hfull : s.bufBegin + s.buffer.length = kpos s := by
      unfold kpos
      omega
    obtain ⟨s1, hseek, hG1, hpos1, hlt1⟩ :=
      kseek_ok d s (s.bufBegin + s.buffer.length) hU hG (by rw [hfull]; exact hpos)
    refine ⟨{ s1 with cur := s1.cur + 1 }, ?_, ⟨?_, ?_⟩, ?_⟩
    · simp only [knext, if_pos hc, hseek]
      have hrec : s1.buffer.getD s1.cur (0, 0) = streamRec d (kpos s) := by
        rw [hG1.2 s1.cur hlt1, hpos1, hfull]
      rw [hrec]
      rfl
    · show s1.cur + 1 ≤ s1.buffer.length
      omega
    · intro j hj
      exact hG1.2 j hj
    · show s1.bufBegin + (s1.cur + 1) = kpos s + 1
      simp only [kpos]
      omega
  · have hlt : s.cur < s.buffer.length := Nat.lt_of_le_of_ne hG.1 hc
    refine ⟨{ s with cur := s.cur + 1 }, ?_, ⟨?_, ?_⟩, ?_⟩
    · simp only [knext, if_neg hc]
      have hrec : s.buffer.getD s.cur (0, 0) = streamRec d (kpos s) := hG.2 s.cur hlt
      rw [hrec]
      rfl
    · show s.cur + 1 ≤ s.buffer.length
      omega
    · intro j hj
      exact hG.2 j hj
    · show s.bufBegin + (s.cur + 1) = kpos s + 1
      unfold kpos
      omega

theorem knext_eof (d : Disk) (s : KronState)
    (hc : s.cur = s.buffer.length) (h : totalEdges d ≤ s.bufBegin + s.buffer.length) :
    knext d s = some (none, s) := by
  simp only [knext, if_pos hc, kseek_fail d s _ h]

theorem knextMany_ok (d : Disk) (hU : UniformDisk d) :
    ∀ j s, GoodState d s → kpos s + j ≤ totalEdges d →
    ∃ s2, knextMany d s j = some ((expectedEdges d (kpos s) j).map some, s2) ∧
      GoodState d s2 ∧ kpos s2 = kpos s + j := by
  intro j
  induction j with
  | zero =>
    intro s hG _
    exact ⟨s, rfl, hG, rfl⟩
  | succ j ih =>
    intro s hG hle
    obtain ⟨s1, hn1, hG1, hp1⟩ := knext_ok d s hU hG (by omega)
    obtain ⟨s2, hn2, hG2, hp2⟩ := ih s1 hG1 (by omega)
    refine ⟨s2, ?_, hG2, by omega⟩
    rw [hp1] at hn2
    simp only [knextMany, hn1, hn2, expectedEdges, List.map_cons]

theorem bl_next_edge_ok (d : Disk) (b : BinLoader)
    (hU : UniformDisk d) (hG : GoodState d b.reader)
    (hl : b.loadedEdges < b.neededEdges) (hpos : kpos b.reader < totalEdges d) :
    ∃ s1, bl_next_edge d b
        = some (some (emitted d (kpos b.reader)),
            { b with reader := s1, loadedEdges := b.loadedEdges + 1 }) ∧
      GoodState d s1 ∧ kpos s1 = kpos b.reader + 1 := by
  obtain ⟨s1, hn, hG1, hp1⟩ := knext_ok d b.reader hU hG hpos
  refine ⟨s1, ?_, hG1, hp1⟩
  simp only [bl_next_edge, if_neg (Nat.ne_of_lt hl), hn]

theorem bl_next_edge_done (d : Disk) (b : BinLoader) (h : b.loadedEdges = b.neededEdges) :
    bl_next_edge d b = some (none, b) := by
  simp only [bl_next_edge, if_pos h]

theorem bl_run_ok (d : Disk) (hU : UniformDisk d) :
    ∀ j b, GoodState d b.reader → kpos b.reader = b.beginEdge + b.loadedEdges →
      b.loadedEdges + j ≤ b.neededEdges → b.beginEdge + b.neededEdges ≤ totalEdges d →
    ∃ b2, bl_run d b j
        = some ((expectedEdges d (b.beginEdge + b.loadedEdges) j).map some, b2) ∧
      GoodState d b2.reader ∧ kpos b2.reader = b.beginEdge + b.loadedEdges + j ∧
      b2.loadedEdges = b.loadedEdges + j ∧ b2.beginEdge = b.beginEdge ∧
      b2.neededEdges = b.neededEdges := by
  intro j
  induction j with
  | zero =>
    intro b hG hp _ _
    exact ⟨b, rfl, hG, by omega, rfl, rfl, rfl⟩
  | succ j ih =>
    intro b hG hp hle htot
    obtain ⟨s1, hn1, hG1, hp1⟩ := bl_next_edge_ok d b hU hG (by omega) (by omega)
    obtain ⟨b2, hr2, hG2, hp2, hl2, hb2, hn2⟩ :=
      ih { b with reader := s1, loadedEdges := b.loadedEdges + 1 } hG1 (by simp; omega)
        (by simp; omega) (by simp; omega)
    refine ⟨b2, ?_, hG2, by simp at hp2; omega, by simp at hl2; omega,
      by simpa using hb2, by simpa using hn2⟩
    rw [hp] at hn1
    simp only [bl_run, hn1]
    simp only at hr2
    rw [hr2]
    simp only [expectedEdges, List.map_cons]
    have : b.beginEdge + b.loadedEdges + 1 = b.beginEdge + (b.loadedEdges + 1) := by omega
    rw [this]

theorem bl_rewind_ok (d : Disk) (b : BinLoader)
    (hU : UniformDisk d) (hG : GoodState d b.reader) (hb : b.beginEdge < totalEdges d) :
    ∃ s1, bl_rewind d b = some { b with reader := s1, loadedEdges := 0 } ∧
      GoodState d s1 ∧ kpos s1 = b.beginEdge := by
  obtain ⟨s1, hseek, hG1, hp1, _⟩ := kseek_ok d b.reader b.beginEdge hU hG hb
  exact ⟨s1, by simp only [bl_rewind, hseek], hG1, hp1⟩

theorem bl_rewind_high (d : Disk) (b : BinLoader) (hb : totalEdges d ≤ b.beginEdge) :
    bl_rewind d b = some { b with loadedEdges := 0 } := by
  simp only [bl_rewind, kseek_fail d b.reader b.beginEdge hb]

theorem bl_pass_ok (d : Disk) (b : BinLoader)
    (hU : UniformDisk d) (hG : GoodState d b.reader)
    (hbn : b.beginEdge + b.neededEdges ≤ totalEdges d) :
    ∃ b2, bl_pass d b = some ((expectedEdges d b.beginEdge b.neededEdges).map some, b2) ∧
      GoodState d b2.reader ∧ b2.beginEdge = b.beginEdge ∧
      b2.neededEdges = b.neededEdges := by
  by_cases hz : b.neededEdges = 0
  · by_cases hlt : b.beginEdge < totalEdges d
    · obtain ⟨s1, hrw, hG1, _⟩ := bl_rewind_ok d b hU hG hlt
      refine ⟨{ b with reader := s1, loadedEdges := 0 }, ?_, hG1, rfl, rfl⟩
      simp only [bl_pass, hrw, hz, bl_run, expectedEdges, List.map_nil]
    · refine ⟨{ b with loadedEdges := 0 }, ?_, hG, rfl, rfl⟩
      simp only [bl_pass, bl_rewind_high d b (by omega), hz, bl_run, expectedEdges,
        List.map_nil]
  · have hlt : b.beginEdge < totalEdges d := by omega
    obtain ⟨s1, hrw, hG1, hp1⟩ := bl_rewind_ok d b hU hG hlt
    obtain ⟨b2, hr2, hG2, hp2, hl2, hb2, hn2⟩ :=
      bl_run_ok d hU b.neededEdges { b with reader := s1, loadedEdges := 0 } hG1
        (by simpa using hp1) (by simp) (by simpa using hbn)
    refine ⟨b2, ?_, hG2, by simpa using hb2, by simpa using hn2⟩
    simp only [bl_pass, hrw]
    simp only [Nat.add_zero] at hr2
    exact hr2

theorem bl_passes_ok (d : Disk) (hU : UniformDisk d) :
    ∀ m b, GoodState d b.reader → b.beginEdge + b.neededEdges ≤ totalEdges d →
    ∃ b2, bl_passes d b m
        = some (List.replicate m ((expectedEdges d b.beginEdge b.neededEdges).map some), b2) ∧
      GoodState d b2.reader ∧ b2.beginEdge = b.beginEdge ∧
      b2.neededEdges = b.neededEdges := by
  intro m
  induction m with
  | zero =>
    intro b hG _
    exact ⟨b, rfl, hG, rfl, rfl⟩
  | succ m ih =>
    intro b hG hbn
    obtain ⟨b1, hp1, hG1, hb1, hn1⟩ := bl_pass_ok d b hU hG hbn
    obtain ⟨b2, hp2, hG2, hb2, hn2⟩ := ih b1 hG1 (by rw [hb1, hn1]; exact hbn)
    refine ⟨b2, ?_, hG2, by rw [hb2, hb1], by rw [hn2, hn1]⟩
    rw [hb1, hn1] at hp2
    simp only [bl_passes, hp1, hp2, List.replicate_succ]

theorem expectedEdges_length (d : Disk) :
    ∀ len start, (expectedEdges d start len).length = len := by
  intro len
  induction len with
  | zero => intro start; rfl
  | succ len ih =>
    intro start
    show (emitted d start :: expectedEdges d (start + 1) len).length = len + 1
    simp [ih (start + 1)]

theorem expectedEdges_getLast (d : Disk) :
    ∀ len start, (expectedEdges d start (len + 1)).getLast? = some (emitted d (start + len)) := by
  intro len
  induction len with
  | zero => intro start; simp [expectedEdges]
  | succ len ih =>
    intro start
    show (emitted d start :: (emitted d (start + 1) ::
      expectedEdges d (start + 1 + 1) len)).getLast? = some (emitted d (start + (len + 1)))
    rw [List.getLast?_cons_cons]
    have h := ih (start + 1)
    rw [show start + 1 + len = start + (len + 1) by omega] at h
    exact h

theorem bl_run_add (d : Disk) (j : Nat) :
    ∀ i b, bl_run d b (i + j)
      = match bl_run d b i with
        | none => none
        | some (l, b1) =>
          match bl_run d b1 j with
          | none => none
          | some (l2, b2) => some (l ++ l2, b2) := by
  intro i
  induction i with
  | zero =>
    intro b
    simp only [Nat.zero_add, bl_run]
    cases h : bl_run d b j with
    | none => rfl
    | some p => rfl
  | succ i ih =>
    intro b
    rw [show i + 1 + j = (i + j) + 1 by omega]
    simp only [bl_run]
    cases hne : bl_next_edge d b with
    | none => rfl
    | some p =>
      obtain ⟨r, b1⟩ := p
      dsimp only
      rw [ih b1]
      cases h1 : bl_run d b1 i with
      | none => rfl
      | some q =>
        obtain ⟨l, b2⟩ := q
        dsimp only
        cases h2 : bl_run d b2 j with
        | none => rfl
        | some q2 =>
          obtain ⟨l2, b3⟩ := q2
          rfl

theorem ll_init_plan_pos (T P p : Nat) (hP : 0 < P) (hdvd : T % P = 0)
    (hp1 : 1 ≤ p) (hpP : p ≤ P) :
    ll_init_plan T (some (P, p)) = some (T / P, (p - 1) * (T / P)) := by
  simp only [ll_init_plan]
  rw [if_pos hP, if_neg (by omega : ¬T % P ≠ 0), if_neg (by omega : ¬(p = 0 ∨ P < p))]

theorem planRange_eq (T P p : Nat) (hP : 0 < P) (hdvd : T % P = 0)
    (hp1 : 1 ≤ p) (hpP : p ≤ P) :
    planRange T P p = Finset.Ico ((p - 1) * (T / P)) ((p - 1) * (T / P) + T / P) := by
  unfold planRange
  rw [ll_init_plan_pos T P p hP hdvd hp1 hpP]

theorem planRange_disjoint_lt (T P p q : Nat) (hP : 0 < P) (hdvd : T % P = 0)
    (hp1 : 1 ≤ p) (hqP : q ≤ P) (hpq : p < q) :
    Disjoint (planRange T P p) (planRange T P q) := by
  rw [planRange_eq T P p hP hdvd hp1 (by omega),
    planRange_eq T P q hP hdvd (by omega) hqP]
  rw [Finset.disjoint_left]
  intro x hx hx'
  rw [Finset.mem_Ico] at hx hx'
  have hpk : (p - 1) * (T / P) + T / P = p * (T / P) := by
    have hp' : p - 1 + 1 = p := by omega
    calc (p - 1) * (T / P) + T / P = (p - 1 + 1) * (T / P) := by ring
    _ = p * (T / P) := by rw [hp']
  have hle : p * (T / P) ≤ (q - 1) * (T / P) :=
    Nat.mul_le_mul_right _ (by omega : p ≤ q - 1)
  omega

/-- C1: for every `total_edges = T` and every `(num_parts, part_index) = (P, p)`
with `P` dividing `T` and `1 <= p <= P`, the planner yields
`needed_edges = T / P` and `begin_edge = (p - 1) * (T / P)`; the ranges
`[begin_edge, begin_edge + needed_edges)` over `p = 1..P` are pairwise
disjoint, each of size `T / P`, and their union is exactly `[0, T)`. -/
theorem planner_partition_exact (T P : Nat) (hP : 0 < P) (hdvd : T % P = 0) :
    (∀ p, 1 ≤ p → p ≤ P →
      ll_init_plan T (some (P, p)) = some (T / P, (p - 1) * (T / P)) ∧
      (planRange T P p).card = T / P) ∧
    (∀ p q, 1 ≤ p → p ≤ P → 1 ≤ q → q ≤ P → p ≠ q →
      Disjoint (planRange T P p) (planRange T P q)) ∧
    (Finset.Icc 1 P).biUnion (fun p => planRange T P p) = Finset.range T := by
  have hTk : T / P * P = T := Nat.div_mul_cancel (Nat.dvd_of_mod_eq_zero hdvd)
  refine ⟨?_, ?_, ?_⟩
  · intro p hp1 hpP
    refine ⟨ll_init_plan_pos T P p hP hdvd hp1 hpP, ?_⟩
    rw [planRange_eq T P p hP hdvd hp1 hpP, Nat.card_Ico]
    exact Nat.add_sub_cancel_left _ _
  · intro p q hp1 hpP hq1 hqP hpq
    rcases lt_or_gt_of_ne hpq with h | h
    · exact planRange_disjoint_lt T P p q hP hdvd hp1 hqP h
    · exact (planRange_disjoint_lt T P q p hP hdvd hq1 hpP h).symm
  · ext x
    simp only [Finset.mem_biUnion, Finset.mem_Icc, Finset.mem_range]
    constructor
    · rintro ⟨p, ⟨hp1, hpP⟩, hx⟩
      rw [planRange_eq T P p hP hdvd hp1 hpP, Finset.mem_Ico] at hx
      have hpk : (p - 1) * (T / P) + T / P = p * (T / P) := by
        have hp' : p - 1 + 1 = p := by omega
        calc (p - 1) * (T / P) + T / P = (p - 1 + 1) * (T / P) := by ring
        _ = p * (T / P) := by rw [hp']
      have hle : p * (T / P) ≤ P * (T / P) := Nat.mul_le_mul_right _ hpP
      have hPT : P * (T / P) = T := by
        rw [Nat.mul_comm]
        exact hTk
      calc x < (p - 1) * (T / P) + T / P := hx.2
      _ = p * (T / P) := hpk
      _ ≤ P * (T / P) := hle
      _ = T := hPT
    · intro hxT
      have hk0 : 0 < T / P := by
        rcases Nat.eq_zero_or_pos (T / P) with h0 | h0
        · rw [h0] at hTk
          omega
        · exact h0
      have hxPk : x < P * (T / P) := by
        rw [Nat.mul_comm, hTk]
        exact hxT
      have hdl : x / (T / P) < P := by
        rw [Nat.div_lt_iff_lt_mul hk0]
        exact hxPk
      refine ⟨x / (T / P) + 1, ⟨Nat.succ_le_succ (Nat.zero_le _), Nat.succ_le_of_lt hdl⟩, ?_⟩
      rw [planRange_eq T P (x / (T / P) + 1) hP hdvd (Nat.succ_le_succ (Nat.zero_le _))
        (Nat.succ_le_of_lt hdl), Finset.mem_Ico]
      simp only [Nat.add_sub_cancel]
      refine ⟨Nat.div_mul_le_self x (T / P), ?_⟩
      calc x = T / P * (x / (T / P)) + x % (T / P) := (Nat.div_add_mod x (T / P)).symm
      _ < T / P * (x / (T / P)) + T / P := Nat.add_lt_add_left (Nat.mod_lt x hk0) _
      _ = x / (T / P) * (T / P) + T / P := by rw [Nat.mul_comm (T / P) (x / (T / P))]

/-- Witness for `planner_partition_exact` at `T = 8`, `P = 2`: part 1 covers
`[0, 4)`, parts 1 and 2 are disjoint, and the two ranges cover `[0, 8)`. -/
theorem planner_partition_exact_witness :
    (0 < 2 ∧ 8 % 2 = 0) ∧
    ll_init_plan 8 (some (2, 1)) = some (4, 0) ∧
    Disjoint (planRange 8 2 1) (planRange 8 2 2) ∧
    (Finset.Icc 1 2).biUnion (fun p => planRange 8 2 p) = Finset.range 8 :=
  ⟨⟨by decide, by decide⟩,
    ((planner_partition_exact 8 2 (by decide) (by decide)).1 1 (by decide) (by decide)).1,
    (planner_partition_exact 8 2 (by decide) (by decide)).2.1 1 2 (by decide) (by decide)
      (by decide) (by decide) (by decide),
    (planner_partition_exact 8 2 (by decide) (by decide)).2.2⟩

/-- C7: with sharding requested (`num_parts = P > 0`), the planner aborts
exactly when `T % P != 0` or the 1-based `part_index` is out of `[1, P]`
(returning `none`, i.e. no partition values are produced; the planner is a
pure function of `total_edges` and the configuration, so no backing file is
involved); in particular `num_parts = 3` against `total_edges = 8` is
rejected for every part index. -/
theorem planner_rejects_bad_config (T P p : Nat) (hP : 0 < P) :
    (ll_init_plan T (some (P, p)) = none ↔ T % P ≠ 0 ∨ p = 0 ∨ P < p) ∧
    ll_init_plan 8 (some (3, p)) = none := by
  constructor
  · simp only [ll_init_plan, if_pos hP]
    by_cases h1 : T % P ≠ 0
    · simp [h1]
    · by_cases h2 : p = 0 ∨ P < p
      · simp [h1, h2]
      · simp [h1, h2]
  · simp only [ll_init_plan]
    norm_num

/-- Witness for `planner_rejects_bad_config` at `T = 8`, `P = 3`, `p = 2`:
8 is not divisible by 3, so the planner aborts. -/
theorem planner_rejects_bad_config_witness :
    0 < 3 ∧
    ((ll_init_plan 8 (some (3, 2)) = none ↔ 8 % 3 ≠ 0 ∨ 2 = 0 ∨ 3 < 2) ∧
      ll_init_plan 8 (some (3, 2)) = none) :=
  ⟨by decide, planner_rejects_bad_config 8 3 2 (by decide)⟩

/-- C2: an adapter planned for `needed_edges = k` over a scanner whose stream
extends beyond `begin_edge + k` delivers exactly `k` records and then reports
exhaustion, the partition boundary being authoritative; further `next_edge`
calls keep reporting exhaustion. -/
theorem adapter_stops_at_partition (d : Disk) (k beginE : Nat) (s : KronState)
    (b0 : BinLoader) (hU : UniformDisk d) (hG : GoodState d s)
    (hext : beginE + k < totalEdges d) (hmk : bl_mk d k beginE s = some b0) :
    ∃ b1, bl_run d b0 (k + 1)
        = some ((expectedEdges d beginE k).map some ++ [none], b1) ∧
      (expectedEdges d beginE k).length = k ∧
      bl_next_edge d b1 = some (none, b1) := by
  have hb : beginE < totalEdges d := by omega
  obtain ⟨s1, hrw, hG1, hp1⟩ := bl_rewind_ok d ⟨beginE, k, 0, s⟩ hU hG hb
  have hp1' : kpos s1 = beginE := hp1
  have hmk' : bl_mk d k beginE s = some (⟨beginE, k, 0, s1⟩ : BinLoader) := by
    show bl_rewind d ⟨beginE, k, 0, s⟩ = _
    rw [hrw]
  rw [hmk] at hmk'
  have hb0 : b0 = ⟨beginE, k, 0, s1⟩ := Option.some.inj hmk'
  subst hb0
  obtain ⟨b2, hr2, hG2, hp2, hl2, hbb2, hn2⟩ :=
    bl_run_ok d hU k ⟨beginE, k, 0, s1⟩ hG1
      (show kpos s1 = beginE + 0 by omega)
      (show 0 + k ≤ k by omega)
      (show beginE + k ≤ totalEdges d by omega)
  have hr2' : bl_run d (⟨beginE, k, 0, s1⟩ : BinLoader) k
      = some ((expectedEdges d (beginE + 0) k).map some, b2) := hr2
  have hdone : bl_next_edge d b2 = some (none, b2) :=
    bl_next_edge_done d b2 (by
      have h1 : b2.loadedEdges = 0 + k := hl2
      have h2 : b2.neededEdges = k := hn2
      omega)
  have hsplit := bl_run_add d 1 k (⟨beginE, k, 0, s1⟩ : BinLoader)
  rw [hr2'] at hsplit
  have hrun1 : bl_run d b2 1 = some ([none], b2) := by
    simp only [bl_run, hdone]
  dsimp only at hsplit
  rw [hrun1] at hsplit
  refine ⟨b2, ?_, expectedEdges_length d k beginE, hdone⟩
  rw [hsplit]
  simp only [Nat.add_zero]

/-- Witness for `adapter_stops_at_partition`: on `disk4` (4 edges), an adapter
for shard `[0, 2)` yields 2 records and then exhaustion. -/
theorem adapter_stops_at_partition_witness :
    (UniformDisk disk4 ∧ GoodState disk4 initKron ∧ 0 + 2 < totalEdges disk4 ∧
      bl_mk disk4 2 0 initKron = some loader42) ∧
    (∃ b1, bl_run disk4 loader42 (2 + 1)
        = some ((expectedEdges disk4 0 2).map some ++ [none], b1) ∧
      (expectedEdges disk4 0 2).length = 2 ∧
      bl_next_edge disk4 b1 = some (none, b1)) :=
  ⟨⟨by decide, by decide, by decide, by decide⟩,
    adapter_stops_at_partition disk4 2 0 initKron loader42 (by decide) (by decide)
      (by decide) (by decide)⟩

/-- C3: for every adapter whose partition lies inside the stream, the first
pass produces the partition's record sequence, and every following
`rewind()`-then-`needed_edges`-calls cycle reproduces exactly that same
sequence, for any number of repetitions. -/
theorem rewind_replays_identically (d : Disk) (b0 : BinLoader) (m : Nat)
    (hU : UniformDisk d) (hG : GoodState d b0.reader)
    (hpos : kpos b0.reader = b0.beginEdge) (hload : b0.loadedEdges = 0)
    (hbn : b0.beginEdge + b0.neededEdges ≤ totalEdges d) :
    ∃ b1 b2, bl_run d b0 b0.neededEdges
        = some ((expectedEdges d b0.beginEdge b0.neededEdges).map some, b1) ∧
      bl_passes d b1 m
        = some (List.replicate m ((expectedEdges d b0.beginEdge b0.neededEdges).map some),
            b2) := by
  obtain ⟨b1, hr1, hG1, _, _, hb1, hn1⟩ :=
    bl_run_ok d hU b0.neededEdges b0 hG (by omega) (by omega) hbn
  rw [hload, Nat.add_zero] at hr1
  obtain ⟨b2, hp2, _, _, _⟩ := bl_passes_ok d hU m b1 hG1 (by rw [hb1, hn1]; exact hbn)
  rw [hb1, hn1] at hp2
  exact ⟨b1, b2, hr1, hp2⟩

/-- Witness for `rewind_replays_identically`: the full-range adapter over
`disk4`, replayed twice. -/
theorem rewind_replays_identically_witness :
    (UniformDisk disk4 ∧ GoodState disk4 loader44.reader ∧
      kpos loader44.reader = loader44.beginEdge ∧ loader44.loadedEdges = 0 ∧
      loader44.beginEdge + loader44.neededEdges ≤ totalEdges disk4) ∧
    (∃ b1 b2, bl_run disk4 loader44 loader44.neededEdges
        = some ((expectedEdges disk4 loader44.beginEdge loader44.neededEdges).map some, b1) ∧
      bl_passes disk4 b1 2
        = some (List.replicate 2
            ((expectedEdges disk4 loader44.beginEdge loader44.neededEdges).map some), b2)) :=
  ⟨⟨by decide, by decide, by decide, by decide, by decide⟩,
    rewind_replays_identically disk4 loader44 2 (by decide) (by decide) (by decide)
      (by decide) (by decide)⟩

/-- C4: on a well-formed input, `seek(n)` followed by one `next` yields the
same record that sequential iteration from index 0 yields at position `n`,
for every `n < total_edges` and from any reachable scanner state; and
`seek(n)` returns the not-found signal `false` whenever `n >= total_edges`. -/
theorem seek_matches_sequential (d : Disk) (s : KronState) (n : Nat)
    (hU : UniformDisk d) (hG : GoodState d s) :
    (totalEdges d ≤ n → kseek d s n = some (false, s)) ∧
    (n < totalEdges d →
      ∃ s1 s2 s3, kseek d s n = some (true, s1) ∧
        knext d s1 = some (some (emitted d n), s2) ∧
        knextMany d initKron (n + 1)
          = some ((expectedEdges d 0 (n + 1)).map some, s3) ∧
        (expectedEdges d 0 (n + 1)).getLast? = some (emitted d n)) := by
  refine ⟨fun h => kseek_fail d s n h, fun hn => ?_⟩
  obtain ⟨s1, hseek, hG1, hp1, _⟩ := kseek_ok d s n hU hG hn
  have hk1 : kpos s1 = n := hp1
  obtain ⟨s2, hnext, _, _⟩ := knext_ok d s1 hU hG1 (by rw [hk1]; exact hn)
  rw [hk1] at hnext
  obtain ⟨s3, hmany, _, _⟩ := knextMany_ok d hU (n + 1) initKron (initKron_good d)
    (show 0 + (n + 1) ≤ totalEdges d by omega)
  have h0 : kpos initKron = 0 := rfl
  rw [h0] at hmany
  have hlast := expectedEdges_getLast d n 0
  rw [Nat.zero_add] at hlast
  exact ⟨s1, s2, s3, hseek, hnext, hmany, hlast⟩

/-- Witness for `seek_matches_sequential` at `n = 1` on `disk4`. -/
theorem seek_matches_sequential_witness :
    (UniformDisk disk4 ∧ GoodState disk4 initKron) ∧
    ((totalEdges disk4 ≤ 1 → kseek disk4 initKron 1 = some (false, initKron)) ∧
      (1 < totalEdges disk4 →
        ∃ s1 s2 s3, kseek disk4 initKron 1 = some (true, s1) ∧
          knext disk4 s1 = some (some (emitted disk4 1), s2) ∧
          knextMany disk4 initKron (1 + 1)
            = some ((expectedEdges disk4 0 (1 + 1)).map some, s3) ∧
          (expectedEdges disk4 0 (1 + 1)).getLast? = some (emitted disk4 1))) :=
  ⟨⟨by decide, by decide⟩, seek_matches_sequential disk4 initKron 1 (by decide) (by decide)⟩

/-- Counterexample to the claim that the emitted edge has `tail` equal to the
record's first on-disk integer and `head` equal to its second: for the
single on-disk record `(1, 2)`, the first `next_edge()` of the data source
emits the pair `(tail, head) = (2, 1)`, i.e. `tail` is the second integer. -/
theorem record_layout_counterexample :
    (ll_create_data_source diskC5 initKron).bind
        (fun b => (bl_next_edge diskC5 b).map Prod.fst)
      = some (some (2, 1)) ∧
    some (some ((2 : Nat), (1 : Nat))) ≠ some (some ((1 : Nat), (2 : Nat))) := by
  decide

/-- C5 (amended): for every on-disk record, the edge emitted by the loader is
the ordered pair `(tail, head)` with `tail` equal to the record's second
integer and `head` equal to the record's first integer. -/
theorem record_layout_swapped (d : Disk) (b : BinLoader)
    (hU : UniformDisk d) (hG : GoodState d b.reader)
    (hl : b.loadedEdges < b.neededEdges) (hpos : kpos b.reader < totalEdges d) :
    ∃ b1, bl_next_edge d b
        = some (some ((streamRec d (kpos b.reader)).2, (streamRec d (kpos b.reader)).1),
            b1) := by
  obtain ⟨s1, h, _, _⟩ := bl_next_edge_ok d b hU hG hl hpos
  exact ⟨_, h⟩

/-- Witness for `record_layout_swapped`: on `disk4`, the adapter's first
`next_edge` emits `(2, 1)` for the on-disk record `(1, 2)`. -/
theorem record_layout_swapped_witness :
    (UniformDisk disk4 ∧ GoodState disk4 loader42.reader ∧
      loader42.loadedEdges < loader42.neededEdges ∧
      kpos loader42.reader < totalEdges disk4) ∧
    (∃ b1, bl_next_edge disk4 loader42
        = some (some ((streamRec disk4 (kpos loader42.reader)).2,
            (streamRec disk4 (kpos loader42.reader)).1), b1)) :=
  ⟨⟨by decide, by decide, by decide, by decide⟩,
    record_layout_swapped disk4 loader42 (by decide) (by decide) (by decide) (by decide)⟩

/-- C8: `stat()` on the synthetic-format adapter succeeds with
`(total_nodes, needed_edges)` and leaves the adapter state — and hence any
subsequent run of the edge stream — untouched, for every adapter state;
`stat()` on the plain-directory adapter always signals unavailable. -/
theorem stat_success_and_unavailable (d : Disk) (b : BinLoader) (p : PlainLoader) (m : Nat) :
    (bl_stat d b).1 = some (totalNodes d, b.neededEdges) ∧
    (bl_stat d b).2 = b ∧
    bl_run d (bl_stat d b).2 m = bl_run d b m ∧
    (plainStat p).1 = none ∧
    (plainStat p).2 = p :=
  ⟨rfl, rfl, rfl, rfl, rfl⟩

/-- Counterexample to the claim that an in-window `seek(n)` always succeeds:
`stateC9` is reached from a fresh scanner by `seek(0)`, the index 4 falls
inside its buffered window `[0, 6)`, yet `seek(4)` returns the not-found
signal because the `n >= total_edges` guard fires first (`total_edges = 4`). -/
theorem inbuffer_seek_counterexample :
    kseek diskC9 initKron 0 = some (true, stateC9) ∧
    stateC9.bufBegin ≤ 4 ∧ 4 < stateC9.bufBegin + stateC9.buffer.length ∧
    kseek diskC9 stateC9 4 = some (false, stateC9) := by
  decide

/-- C9 (amended): for every scanner state and every `n` inside the buffered
window with `n < total_edges`, `seek(n)` succeeds and modifies only the
in-buffer cursor: the buffer contents, the buffer's first logical index, the
open-file identity, the open flag and the file read position are all
unchanged (in particular the refill path that performs file I/O is not
taken). -/
theorem inbuffer_seek_frame (d : Disk) (s : KronState) (n : Nat)
    (h1 : s.bufBegin ≤ n) (h2 : n < s.bufBegin + s.buffer.length)
    (hn : n < totalEdges d) :
    ∃ s1, kseek d s n = some (true, s1) ∧ s1.cur = n - s.bufBegin ∧
      s1.buffer = s.buffer ∧ s1.bufBegin = s.bufBegin ∧ s1.curFileId = s.curFileId ∧
      s1.fileOpen = s.fileOpen ∧ s1.filePos = s.filePos := by
  refine ⟨{ s with cur := n - s.bufBegin }, ?_, rfl, rfl, rfl, rfl, rfl, rfl⟩
  simp [kseek, Nat.not_le.mpr hn, h1, h2]

/-- Witness for `inbuffer_seek_frame`: an in-window seek to index 1 on
`state4` over `disk4`. -/
theorem inbuffer_seek_frame_witness :
    (state4.bufBegin ≤ 1 ∧ 1 < state4.bufBegin + state4.buffer.length ∧
      1 < totalEdges disk4) ∧
    (∃ s1, kseek disk4 state4 1 = some (true, s1) ∧ s1.cur = 1 - state4.bufBegin ∧
      s1.buffer = state4.buffer ∧ s1.bufBegin = state4.bufBegin ∧
      s1.curFileId = state4.curFileId ∧ s1.fileOpen = state4.fileOpen ∧
      s1.filePos = state4.filePos) :=
  ⟨⟨by decide, by decide, by decide⟩,
    inbuffer_seek_frame disk4 state4 1 (by decide) (by decide) (by decide)⟩

/-- C10: every adapter returned by `create_data_source` covers the full edge
stream — `begin_edge = 0` and `needed_edges = total_edges` — because the
planner is invoked with a null configuration, whose plan ignores any shard
settings. -/
theorem data_source_covers_all (d : Disk) (s : KronState) (b : BinLoader)
    (h : ll_create_data_source d s = some b) :
    b.beginEdge = 0 ∧ b.neededEdges = totalEdges d ∧
    ll_init_plan (totalEdges d) none = some (totalEdges d, 0) := by
  have h' : bl_mk d (totalEdges d) 0 s = some b := h
  unfold bl_mk bl_rewind at h'
  cases hk : kseek d s 0 with
  | none =>
    rw [hk] at h'
    exact absurd h' (by simp)
  | some rs =>
    obtain ⟨r, s1⟩ := rs
    rw [hk] at h'
    simp only [Option.some.injEq] at h'
    rw [← h']
    exact ⟨rfl, rfl, rfl⟩

/-- Witness for `data_source_covers_all`: over `disk4` the data source is the
full-range adapter `[0, 4)`. -/
theorem data_source_covers_all_witness :
    ll_create_data_source disk4 initKron = some (⟨0, 4, 0, state4⟩ : BinLoader) ∧
    ((⟨0, 4, 0, state4⟩ : BinLoader).beginEdge = 0 ∧
      (⟨0, 4, 0, state4⟩ : BinLoader).neededEdges = totalEdges disk4 ∧
      ll_init_plan (totalEdges disk4) none = some (totalEdges disk4, 0)) :=
  ⟨by decide, data_source_covers_all disk4 initKron ⟨0, 4, 0, state4⟩ (by decide)⟩

/-- C6: evaluation of the plain loader on `dirC6`, the claim's two-file
scenario.  Because `read_buffer` performs a second unconditional `fread`
after advancing to the next file, the 3 records of the first file are
overwritten and lost; the unsharded load delivers only the 2 records of the
second file — `(8, 7)` and `(10, 9)` as `(tail, head)` pairs — and then
reports exhaustion, instead of the 5 records the claim describes. -/
theorem plain_two_files_loses_first_file :
    (plainMk dirC6).bind (fun b0 => (plainRun dirC6 10 b0 3).map Prod.fst)
      = some [some (8, 7), some (10, 9), none] := by
  decide
